import Mathlib

/- Verification of the Apple HIG sync script
   src/skills/ios-hig-design-guide/scripts/sync_apple_hig_sources.py.

   JSON values are modelled as an inductive tree.  Python dicts appear as
   association lists in insertion order: CPython dicts preserve insertion
   order, `d.get(k)` returns the binding of `k` (first match in the list
   model), and `d[k] = v` updates the binding in place when `k` is present
   and appends it otherwise.  Effects (HTTP fetches, the local page mirror)
   appear as explicit function-valued arguments. -/

/-- JSON values; Python dicts are association lists in insertion order. -/
inductive Json where
  | null
  | bool (b : Bool)
  | num (n : Int)
  | str (s : String)
  | arr (elems : List Json)
  | obj (entries : List (String × Json))

/-- Looking a key up in an association list yields a strictly smaller value
(used for termination of the JSON walks). -/
theorem Json.sizeOf_lookup_lt {d : List (String × Json)} {k : String} {v : Json}
    (h : d.lookup k = some v) : sizeOf v < sizeOf d := by
  induction d with
  | nil => simp [List.lookup] at h
  | cons e es ih =>
    obtain ⟨a, b⟩ := e
    simp only [List.lookup] at h
    by_cases hk : (k == a) = true
    · simp [hk] at h
      subst h
      simp
      omega
    · simp [hk] at h
      have := ih h
      simp
      omega

/-- Membership of a key-value pair bounds the size of the value. -/
theorem Json.sizeOf_snd_lt_of_mem {kvs : List (String × Json)} {k : String} {v : Json}
    (h : (k, v) ∈ kvs) : sizeOf v < sizeOf kvs := by
  have h1 := List.sizeOf_lt_of_mem h
  simp at h1
  omega

/- ---------------------------------------------------------------------
   String helpers mirroring the Python string operations used by the
   script.  They are written by structural recursion on the character
   list so that they evaluate inside the kernel. -/

/-- Characters Python's `str.split()` treats as whitespace (ASCII range). -/
def pyIsSpace (c : Char) : Bool :=
  c = ' ' || c = '\t' || c = '\n' || c = '\r' || c = '\x0b' || c = '\x0c'

/-- Worker for `py_split_ws`: scan the characters, collecting the current
word in reverse in `acc`. -/
def pyWordsAux : List Char → List Char → List String
  | [], acc => if acc.isEmpty then [] else [String.mk acc.reverse]
  | c :: cs, acc =>
    if pyIsSpace c then
      if acc.isEmpty then pyWordsAux cs []
      else String.mk acc.reverse :: pyWordsAux cs []
    else pyWordsAux cs (c :: acc)

/-- Python `s.split()`: maximal runs of non-whitespace characters. -/
def py_split_ws (s : String) : List String := pyWordsAux s.data []

/-- Python `sep.join(parts)`. -/
def join_with (sep : String) : List String → String
  | [] => ""
  | [x] => x
  | x :: xs => x ++ sep ++ join_with sep xs

/-- Python `path.rsplit("/", 1)[-1]`: the substring after the last `/`
(the whole string when there is no `/`). -/
def last_segment (p : String) : String :=
  String.mk ((p.data.reverse.takeWhile (fun c => c ≠ '/')).reverse)

/-- Python `s.startswith(pre)`. -/
def py_starts_with (s pre : String) : Bool := List.isPrefixOf pre.data s.data

/-- Python `s.lstrip("/")`. -/
def py_lstrip_slash (s : String) : String :=
  String.mk (s.data.dropWhile (fun c => c = '/'))

/- ---------------------------------------------------------------------
   Constants from the script. -/

/-- Source line 18: URL of the index document. -/
def INDEX_URL : String :=
  "https://developer.apple.com/tutorials/data/index/design--human-interface-guidelines"

/-- Source line 19: base URL for per-page JSON. -/
def DATA_BASE : String := "https://developer.apple.com/tutorials/data"

/-- Source line 20: required path filter, `/design/human-interface-guidelines`. -/
def PAGE_PREFIX : String := "/design/human-interface-guidelines"

/-- Source lines 21-28: slugs of non-iOS platform overview pages (a Python
set used only for membership tests, modelled as a list). -/
def NON_IOS_SLUGS : List String :=
  [ "designing-for-ipados"
  , "designing-for-macos"
  , "designing-for-tvos"
  , "designing-for-visionos"
  , "designing-for-watchos"
  , "designing-for-games" ]

/- ---------------------------------------------------------------------
   Text extraction (source lines 57-106). -/

/-- Source lines 57-58: `normalize_space`, i.e. `" ".join(value.split())`. -/
def normalize_space (value : String) : String := join_with " " (py_split_ws value)

/-- Helper for `isinstance(child, str)` tests combined with using the string. -/
def Json.asString : Json → Option String
  | .str s => some s
  | _ => none

/-- Source lines 79-92: `collect_text_fragments`.  A mapping entry whose key
is `"text"` with a string value contributes its normalized text when
non-empty; every other entry, and every sequence element, is recursed into;
scalars contribute nothing.  The Python version appends to an output list;
here the emitted fragments are returned in the same order. -/
def collect_text_fragments (value : Json) : List String :=
  match value with
  | .obj kvs =>
    kvs.attach.flatMap (fun e =>
      match e.1.1 == "text", Json.asString e.1.2 with
      | true, some s =>
        let text := normalize_space s
        if text = "" then [] else [text]
      | _, _ => collect_text_fragments e.1.2)
  | .arr elems => elems.attach.flatMap (fun e => collect_text_fragments e.1)
  | _ => []
termination_by sizeOf value
decreasing_by
  all_goals
    first
      | (obtain ⟨c, hm⟩ := e; have h1 := List.sizeOf_lt_of_mem hm; simp at h1 ⊢; omega)
      | (obtain ⟨⟨k, v⟩, hm⟩ := e; have h1 := List.sizeOf_lt_of_mem hm; simp at h1 ⊢; omega)

/-- Source lines 99-105, loop body: `last` is the most recently kept
fragment; a fragment equal to it is dropped, otherwise it is kept and
becomes the new `last`. -/
def compactFragmentsAux (last : String) : List String → List String
  | [] => []
  | f :: rest =>
    if f = last then compactFragmentsAux last rest
    else f :: compactFragmentsAux f rest

/-- Source lines 99-105: the compaction loop started with `last = None`,
so the first fragment is always kept. -/
def compactFragments : List String → List String
  | [] => []
  | f :: rest => f :: compactFragmentsAux f rest

/-- Source lines 95-106: `extract_full_text` collects the fragments,
drops immediately repeated ones, and joins with a blank line. -/
def extract_full_text (page_json : Json) : String :=
  join_with "\n\n" (compactFragments (collect_text_fragments page_json))

/-- Source lines 61-76: `extract_abstract` reads the top-level `abstract`
field: a string is normalized; a list contributes its string items and the
`"text"` string entries of its dict items, joined by single spaces and
normalized, with the empty string when no item contributes; anything else
yields the empty string. -/
def extract_abstract (page_json : List (String × Json)) : String :=
  match page_json.lookup "abstract" with
  | some (.str s) => normalize_space s
  | some (.arr items) =>
    let parts := items.filterMap (fun item =>
      match item with
      | .str s => some s
      | .obj kvs =>
        match kvs.lookup "text" with
        | some (.str t) => some t
        | _ => none
      | _ => none)
    if parts.isEmpty then "" else normalize_space (join_with " " parts)
  | _ => ""

/-- Generic elimination of `attach` under `flatMap`, used to restate the
recursive walks without the termination bookkeeping. -/
theorem flatMap_attach_eq {α β : Type} (l : List α) (g : α → List β) :
    l.attach.flatMap (fun e => g e.1) = l.flatMap g := by
  simp

/-- Per-entry action of `collect_text_fragments` on a mapping entry. -/
def ctf_entry (e : String × Json) : List String :=
  match e.1 == "text", Json.asString e.2 with
  | true, some s =>
    let text := normalize_space s
    if text = "" then [] else [text]
  | _, _ => collect_text_fragments e.2

theorem collect_obj_eq (kvs : List (String × Json)) :
    collect_text_fragments (.obj kvs) = kvs.flatMap ctf_entry := by
  unfold collect_text_fragments
  exact flatMap_attach_eq kvs ctf_entry

theorem collect_arr_eq (elems : List Json) :
    collect_text_fragments (.arr elems) = elems.flatMap collect_text_fragments := by
  unfold collect_text_fragments
  exact flatMap_attach_eq elems collect_text_fragments

theorem collect_null_eq : collect_text_fragments .null = [] := by
  unfold collect_text_fragments
  rfl

theorem collect_bool_eq (b : Bool) : collect_text_fragments (.bool b) = [] := by
  unfold collect_text_fragments
  rfl

theorem collect_num_eq (n : Int) : collect_text_fragments (.num n) = [] := by
  unfold collect_text_fragments
  rfl

theorem collect_str_eq (s : String) : collect_text_fragments (.str s) = [] := by
  unfold collect_text_fragments
  rfl

/- ---------------------------------------------------------------------
   Node collection (source lines 36-41 and 109-144). -/

/-- Source lines 36-41: the `Node` dataclass. -/
structure Node where
  path : String
  title : String
  kind : String
  parent_path : Option String
deriving DecidableEq

/-- Source line 115: the acceptance test of `walk_nodes` — the node's `path`
field is a string and starts with the page path filter; the accepted path is
returned. -/
def accepted_path (kvs : List (String × Json)) : Option String :=
  match kvs.lookup "path" with
  | some (.str p) => if py_starts_with p PAGE_PREFIX then some p else none
  | _ => none

/-- Source lines 116-123: the `Node` built for an accepted path; a missing or
non-string `title` falls back to the last path segment, a missing or
non-string `type` falls back to `"unknown"`. -/
def nodeOf (kvs : List (String × Json)) (p : String) (parent_path : Option String) : Node :=
  { path := p
  , title := match kvs.lookup "title" with
             | some (.str t) => t
             | _ => last_segment p
  , kind := match kvs.lookup "type" with
            | some (.str k) => k
            | _ => "unknown"
  , parent_path := parent_path }

/-- Source lines 109-130: `walk_nodes` in pre-order: the node itself when
accepted (with the incoming parent as `parent_path`), then the children,
walked with the accepted path as the new parent context (`current_parent`),
or the unchanged context when the node was not accepted.  Non-mapping
children are skipped by the source (`isinstance(child, dict)`); here the walk
of a non-mapping value returns `[]`, which is the same behaviour. -/
def walk_nodes (node : Json) (parent_path : Option String) : List Node :=
  match node with
  | .obj kvs =>
    ((accepted_path kvs).map (fun p => nodeOf kvs p parent_path)).toList ++
    (match h : kvs.lookup "children" with
     | some (.arr cs) =>
       cs.attach.flatMap (fun c => walk_nodes c.1 ((accepted_path kvs).or parent_path))
     | _ => [])
  | _ => []
termination_by sizeOf node
decreasing_by
  obtain ⟨c, hm⟩ := c
  have h1 := List.sizeOf_lt_of_mem hm
  have h2 := Json.sizeOf_lookup_lt h
  simp at h2 ⊢
  omega

theorem walk_obj_eq (kvs : List (String × Json)) (parent_path : Option String) :
    walk_nodes (.obj kvs) parent_path =
      ((accepted_path kvs).map (fun p => nodeOf kvs p parent_path)).toList ++
      (match kvs.lookup "children" with
       | some (.arr cs) =>
         cs.flatMap (fun c => walk_nodes c ((accepted_path kvs).or parent_path))
       | _ => []) := by
  conv_lhs => unfold walk_nodes
  congr 1
  cases h : kvs.lookup "children" with
  | none => rfl
  | some v =>
    cases v with
    | arr cs =>
      show cs.attach.flatMap (fun c => walk_nodes c.1 ((accepted_path kvs).or parent_path))
        = cs.flatMap (fun c => walk_nodes c ((accepted_path kvs).or parent_path))
      exact flatMap_attach_eq cs
        (fun c => walk_nodes c ((accepted_path kvs).or parent_path))
    | null => rfl
    | bool b => rfl
    | num n => rfl
    | str s => rfl
    | obj es => rfl

theorem walk_scalar_eq (j : Json) (parent_path : Option String)
    (ho : ∀ es, j ≠ .obj es) : walk_nodes j parent_path = [] := by
  unfold walk_nodes
  cases j with
  | obj es => exact absurd rfl (ho es)
  | _ => rfl

/-- Source line 134: `index_json.get("interfaceLanguages", {}).get("swift", [])`,
as the list of roots the loop at lines 136-138 visits.  A `swift` value that
is a string or a mapping is iterated by the source (over its characters or
keys) without ever yielding a mapping root, so it contributes no nodes and
is mapped to the empty forest.  Shapes on which line 134 or the loop would
raise instead (`interfaceLanguages` bound to a non-mapping, `swift` bound to
a non-iterable scalar) are detected by `index_shape_raises` below and never
reach this function in the run model of `sync_sources`; taken in isolation
(as in the catalog theorems) this function maps them to the empty forest,
and every real input forest arrives through a well-shaped index on which
both agree. -/
def swift_forest (index_json : List (String × Json)) : List Json :=
  match index_json.lookup "interfaceLanguages" with
  | some (.obj il) =>
    match il.lookup "swift" with
    | some (.arr roots) => roots
    | _ => []
  | _ => []

/-- Source lines 134-138: the index shapes on which the run raises an
uncaught exception before any row is processed.  A non-mapping bound to
`interfaceLanguages` has no `.get`, so line 134 raises `AttributeError`
(the key being present, the `{}` default is not used); a `swift` value that
is neither a sequence nor a string nor a mapping is not iterable, so the
loop at line 136 raises `TypeError`.  Strings and mappings iterate without
raising (yielding characters or keys, never a mapping root); a missing key
falls back to `{}` or `[]`. -/
def index_shape_raises (index_json : List (String × Json)) : Option String :=
  match index_json.lookup "interfaceLanguages" with
  | none => none
  | some (.obj il) =>
    match il.lookup "swift" with
    | none => none
    | some (.arr _) => none
    | some (.str _) => none
    | some (.obj _) => none
    | some _ => some "TypeError: object is not iterable"
  | some _ => some "AttributeError: object has no attribute get"

/-- Source lines 135-138: the pre-order node list of the whole forest, each
mapping root walked with no parent; non-mapping roots are skipped. -/
def hig_preorder (index_json : List (String × Json)) : List Node :=
  (swift_forest index_json).flatMap (fun root => walk_nodes root none)

/-- Source line 142: `dedup[node.path] = node` on a CPython dict — an existing
key keeps its position and gets the new value, a new key is appended. -/
def dictUpsert (d : List (String × Node)) (n : Node) : List (String × Node) :=
  if d.any (fun e => e.1 == n.path) then
    d.map (fun e => if e.1 == n.path then (e.1, n) else e)
  else d ++ [(n.path, n)]

/-- Source lines 140-142: the dedup dict built over the node list. -/
def dedup_nodes (nodes : List Node) : List (String × Node) :=
  nodes.foldl dictUpsert []

/-- Source lines 133-144: `collect_hig_nodes` — walk the forest, deduplicate
by path (last wins), and sort by path.  Python's `sorted` is modelled by
`mergeSort` with the decidable `≤` on strings; the dict values all carry
distinct paths, so any sorted permutation is the unique model of the
source's output. -/
def collect_hig_nodes (index_json : List (String × Json)) : List Node :=
  ((dedup_nodes (hig_preorder index_json)).map Prod.snd).mergeSort
    (fun a b => decide (a.path ≤ b.path))

/- ---------------------------------------------------------------------
   Catalog rows (source lines 323-334) and the curated-page predicate
   (source lines 241-255). -/

/-- Source lines 323-334: the catalog row dict built in `sync_sources`.  All
ten fields are always present with the types recorded here, so the row is
modelled as a structure; `Row.toDict` below recovers the dict view. -/
structure Row where
  path : String
  title : String
  kind : String
  parent_path : Option String
  source_url : String
  data_url : String
  local_json : String
  download_status : String
  abstract : String
  error : String
deriving DecidableEq

/-- The dict view of a catalog row, with the keys in the insertion order of
source lines 323-334. -/
def Row.toDict (r : Row) : List (String × Json) :=
  [ ("path", .str r.path)
  , ("title", .str r.title)
  , ("kind", .str r.kind)
  , ("parent_path", match r.parent_path with | some p => .str p | none => .null)
  , ("source_url", .str r.source_url)
  , ("data_url", .str r.data_url)
  , ("local_json", .str r.local_json)
  , ("download_status", .str r.download_status)
  , ("abstract", .str r.abstract)
  , ("error", .str r.error) ]

/-- Source lines 241-255: `is_curated_ios_row` on a row dict — the download
status must be the string `"ok"`, the kind must be the string `"article"`,
the path must be a string, and the final `/`-delimited path segment must not
be one of the non-iOS slugs. -/
def is_curated_ios_row (row : List (String × Json)) : Bool :=
  match row.lookup "download_status" with
  | some (.str s) =>
    if s ≠ "ok" then false
    else
      match row.lookup "kind" with
      | some (.str k) =>
        if k ≠ "article" then false
        else
          match row.lookup "path" with
          | some (.str p) => !(NON_IOS_SLUGS.contains (last_segment p))
          | _ => false
      | _ => false
  | _ => false

/- ---------------------------------------------------------------------
   Markdown builders (source lines 194-238 and 258-300).  The local page
   mirror (`references_dir`, `Path.read_text`, `json.loads`) is modelled by
   a lookup `store` from the row's `local_json` to the parsed page, `none`
   when the file is missing or unparsable.  The builders are modelled up to
   the final line list (the file write joins the lines with newlines). -/

/-- Source lines 200-206: the fixed header of the full-text dump. -/
def fulltext_header (generated_at : String) : List String :=
  [ "# Apple HIG Full Text Dump (iOS-focused usage)"
  , ""
  , "This file is auto-generated from Apple source endpoints."
  , "The content below is extracted from all `text` fields in each page JSON."
  , "Generated at: " ++ generated_at
  , "" ]

/-- Source lines 194-238: `build_fulltext_markdown` — for each row in order:
skip it unless `download_status == "ok"`; skip it when the stored page is
missing or unparsable; otherwise append a section with the title, metadata
lines, and the extracted text or the placeholder.  (The source also skips a
row whose `local_json` is not a string; in the row model that field is
always a string.) -/
def build_fulltext_markdown (rows : List Row) (store : String → Option Json)
    (generated_at : String) : List String :=
  rows.foldl (fun lines row =>
    if row.download_status ≠ "ok" then lines
    else
      match store row.local_json with
      | none => lines
      | some page_json =>
        let full_text := extract_full_text page_json
        lines ++
          [ "## " ++ row.title
          , ""
          , "- Path: `" ++ row.path ++ "`"
          , "- Source URL: " ++ row.source_url
          , "- Data URL: " ++ row.data_url
          , "" ] ++
          (if full_text = "" then ["(no extracted text)"] else [full_text]) ++
          [""])
    (fulltext_header generated_at)

/-- Source lines 266-273: the header of the curated dump, including the
`Included pages` count of rows passing the curated filter. -/
def curated_header (generated_at : String) (included : Nat) : List String :=
  [ "# Apple HIG iOS Curated Text"
  , ""
  , "This file is auto-generated for practical iOS design-spec writing."
  , "It excludes index/module/symbol nodes and non-iOS platform overview pages."
  , "Generated at: " ++ generated_at
  , "Included pages: " ++ toString included
  , "" ]

/-- Source lines 258-300: `build_curated_markdown` — filter the rows with
`is_curated_ios_row`, record the count in the header, then render one
section per curated row whose stored page parses, in order. -/
def build_curated_markdown (rows : List Row) (store : String → Option Json)
    (generated_at : String) : List String :=
  let curated_rows := rows.filter (fun r => is_curated_ios_row r.toDict)
  curated_rows.foldl (fun lines row =>
    match store row.local_json with
    | none => lines
    | some page_json =>
      let full_text := extract_full_text page_json
      lines ++
        [ "## " ++ row.title
        , ""
        , "- Path: `" ++ row.path ++ "`"
        , "- Source URL: " ++ row.source_url
        , "" ] ++
        (if full_text = "" then ["(no extracted text)"] else [full_text]) ++
        [""])
    (curated_header generated_at curated_rows.length)

/- ---------------------------------------------------------------------
   The sync run (source lines 303-361) and the CLI entry point (source
   lines 402-424).  HTTP is modelled by a function from URL to either an
   error message (the exceptions of source line 342) or the parsed JSON
   dict; `sync_sources` is modelled up to its catalog value, which the
   source writes to `references/raw/catalog.json` exactly when it returns. -/

/-- Source lines 351-360: the catalog value. -/
structure Catalog where
  generated_at : String
  index_url : String
  page_base : String
  page_prefix : String
  total_nodes : Nat
  download_ok : Nat
  download_error : Nat
  rows : List Row

/-- Source lines 318-346: the row built for one node, including the single
fetch attempt. -/
def row_for_node (net : String → Except String (List (String × Json)))
    (node : Node) : Row :=
  let data_url := DATA_BASE ++ node.path ++ ".json"
  let source_url := "https://developer.apple.com" ++ node.path
  let local_json := "raw/pages/" ++ py_lstrip_slash node.path ++ ".json"
  match net data_url with
  | .ok page_json =>
    { path := node.path, title := node.title, kind := node.kind
    , parent_path := node.parent_path, source_url := source_url
    , data_url := data_url, local_json := local_json
    , download_status := "ok", abstract := extract_abstract page_json
    , error := "" }
  | .error exc =>
    { path := node.path, title := node.title, kind := node.kind
    , parent_path := node.parent_path, source_url := source_url
    , data_url := data_url, local_json := local_json
    , download_status := "error", abstract := ""
    , error := normalize_space exc }

/-- Source lines 303-361: `sync_sources` — the index fetch is unguarded, so
a failed fetch propagates as an exception and nothing further runs (in
particular no catalog is written); an index whose shape makes line 134 or
the root loop raise likewise aborts the run before any row exists (see
`index_shape_raises`); otherwise every node is processed, each page fetch
failure being caught per row, and the catalog is built and written. -/
def sync_sources (net : String → Except String (List (String × Json)))
    (generated_at : String) : Except String Catalog :=
  match net INDEX_URL with
  | .error exc => .error exc
  | .ok index_json =>
    match index_shape_raises index_json with
    | some exc => .error exc
    | none =>
      let nodes := collect_hig_nodes index_json
      let rows := nodes.map (row_for_node net)
      let ok_count := (rows.filter (fun r => r.download_status == "ok")).length
      .ok
        { generated_at := generated_at
        , index_url := INDEX_URL
        , page_base := DATA_BASE
        , page_prefix := PAGE_PREFIX
        , total_nodes := nodes.length
        , download_ok := ok_count
        , download_error := nodes.length - ok_count
        , rows := rows }

/-- Source lines 402-420: `main` — exit 1 when the skill directory misses
`SKILL.md`, otherwise run the sync and exit 0.  An exception escaping
`sync_sources` propagates out of `main`. -/
def main_model (skill_dir_valid : Bool)
    (net : String → Except String (List (String × Json)))
    (generated_at : String) : Except String Nat :=
  if !skill_dir_valid then .ok 1
  else
    match sync_sources net generated_at with
    | .error exc => .error exc
    | .ok _ => .ok 0

/-- Source line 424: `raise SystemExit(main())` — a normal return is the
exit status; an uncaught exception makes the Python interpreter exit with
status 1. -/
def exit_code (r : Except String Nat) : Nat :=
  match r with
  | .ok code => code
  | .error _ => 1

/-- Whether the catalog file is written during the run: `sync_sources` is
only reached on a valid skill dir, and writes the catalog exactly when it
completes. -/
def catalog_written (skill_dir_valid : Bool)
    (net : String → Except String (List (String × Json)))
    (generated_at : String) : Bool :=
  skill_dir_valid && (sync_sources net generated_at).isOk

/- ---------------------------------------------------------------------
   Specification-side definitions, written from the spec's wording, to be
   compared with the source-side definitions above. -/

/-- Modelled from the spec: the pre-order walk carrying the full stack of
accepted-ancestor paths, nearest first.  A node is accepted iff its `path`
field is a string starting with the configured page path filter; an
accepted node's `parent_path` is the nearest accepted ancestor (the stack
head, none when the stack is empty) and its own path is pushed for its
subtree; an unaccepted node passes the stack to its children unchanged. -/
def spec_walk (node : Json) (ancestors : List String) : List Node :=
  match node with
  | .obj kvs =>
    ((accepted_path kvs).map (fun p => nodeOf kvs p ancestors.head?)).toList ++
    (match h : kvs.lookup "children" with
     | some (.arr cs) =>
       cs.attach.flatMap (fun c =>
         spec_walk c.1
           (match accepted_path kvs with
            | some p => p :: ancestors
            | none => ancestors))
     | _ => [])
  | _ => []
termination_by sizeOf node
decreasing_by
  obtain ⟨c, hm⟩ := c
  have h1 := List.sizeOf_lt_of_mem hm
  have h2 := Json.sizeOf_lookup_lt h
  simp at h2 ⊢
  omega

theorem spec_walk_obj_eq (kvs : List (String × Json)) (ancestors : List String) :
    spec_walk (.obj kvs) ancestors =
      ((accepted_path kvs).map (fun p => nodeOf kvs p ancestors.head?)).toList ++
      (match kvs.lookup "children" with
       | some (.arr cs) =>
         cs.flatMap (fun c =>
           spec_walk c
             (match accepted_path kvs with
              | some p => p :: ancestors
              | none => ancestors))
       | _ => []) := by
  conv_lhs => unfold spec_walk
  congr 1
  cases h : kvs.lookup "children" with
  | none => rfl
  | some v =>
    cases v with
    | arr cs =>
      show cs.attach.flatMap _ = cs.flatMap _
      exact flatMap_attach_eq cs
        (fun c => spec_walk c
          (match accepted_path kvs with
           | some p => p :: ancestors
           | none => ancestors))
    | null => rfl
    | bool b => rfl
    | num n => rfl
    | str s => rfl
    | obj es => rfl

theorem spec_walk_scalar_eq (j : Json) (ancestors : List String)
    (ho : ∀ es, j ≠ .obj es) : spec_walk j ancestors = [] := by
  unfold spec_walk
  cases j with
  | obj es => exact absurd rfl (ho es)
  | _ => rfl

/-- Modelled from the spec: the raw string values of `"text"`-keyed mapping
entries, in depth-first order, before whitespace normalization and before
dropping empty fragments; all other mapping entries and all sequence
elements are recursed into. -/
def text_leaves (value : Json) : List String :=
  match value with
  | .obj kvs =>
    kvs.attach.flatMap (fun e =>
      match e.1.1 == "text", Json.asString e.1.2 with
      | true, some s => [s]
      | _, _ => text_leaves e.1.2)
  | .arr elems => elems.attach.flatMap (fun e => text_leaves e.1)
  | _ => []
termination_by sizeOf value
decreasing_by
  all_goals
    first
      | (obtain ⟨c, hm⟩ := e; have h1 := List.sizeOf_lt_of_mem hm; simp at h1 ⊢; omega)
      | (obtain ⟨⟨k, v⟩, hm⟩ := e; have h1 := List.sizeOf_lt_of_mem hm; simp at h1 ⊢; omega)

/-- Per-entry action of `text_leaves` on a mapping entry. -/
def text_leaves_entry (e : String × Json) : List String :=
  match e.1 == "text", Json.asString e.2 with
  | true, some s => [s]
  | _, _ => text_leaves e.2

theorem text_leaves_obj_eq (kvs : List (String × Json)) :
    text_leaves (.obj kvs) = kvs.flatMap text_leaves_entry := by
  unfold text_leaves
  exact flatMap_attach_eq kvs text_leaves_entry

theorem text_leaves_arr_eq (elems : List Json) :
    text_leaves (.arr elems) = elems.flatMap text_leaves := by
  unfold text_leaves
  exact flatMap_attach_eq elems text_leaves

/-- Modelled from the spec: the full-text dump contains one section per row
with `download_status == "ok"` whose stored page JSON can be read and
parsed; a failing storage lookup contributes nothing, and a section whose
extraction yields no text shows the placeholder. -/
def fulltext_section_spec (store : String → Option Json) (row : Row) : List String :=
  if row.download_status = "ok" then
    match store row.local_json with
    | some page_json =>
      [ "## " ++ row.title
      , ""
      , "- Path: `" ++ row.path ++ "`"
      , "- Source URL: " ++ row.source_url
      , "- Data URL: " ++ row.data_url
      , "" ] ++
      (if extract_full_text page_json = "" then ["(no extracted text)"]
       else [extract_full_text page_json]) ++
      [""]
    | none => []
  else []

/-- Modelled from the spec: the section a curated row contributes to the
curated dump — rendered like the full-text dump (minus the data URL line)
when the stored page parses, nothing when the storage lookup fails. -/
def curated_section_spec (store : String → Option Json) (row : Row) : List String :=
  match store row.local_json with
  | some page_json =>
    [ "## " ++ row.title
    , ""
    , "- Path: `" ++ row.path ++ "`"
    , "- Source URL: " ++ row.source_url
    , "" ] ++
    (if extract_full_text page_json = "" then ["(no extracted text)"]
     else [extract_full_text page_json]) ++
    [""]
  | none => []

/- =====================================================================
   Claim theorems. -/

/-- The compaction loop of `extract_full_text` agrees with Mathlib's
adjacent-duplicate removal `destutter'`. -/
theorem compactFragmentsAux_eq_destutter (l : List String) :
    ∀ a : String, List.destutter' (fun x y => x ≠ y) a l = a :: compactFragmentsAux a l := by
  induction l with
  | nil => intro a; simp [List.destutter', compactFragmentsAux]
  | cons f rest ih =>
    intro a
    by_cases hfa : f = a
    · subst hfa
      simp [List.destutter', compactFragmentsAux, ih]
    · simp [List.destutter', compactFragmentsAux, Ne.symm hfa, hfa, ih]

theorem compactFragments_eq_destutter (l : List String) :
    compactFragments l = List.destutter (fun x y => x ≠ y) l := by
  cases l with
  | nil => rfl
  | cons f rest =>
    simp [compactFragments, List.destutter, compactFragmentsAux_eq_destutter]

/-- C2: for every page, `extract_full_text` is the fragment list with a
fragment removed exactly when it equals its immediate predecessor
(Mathlib's `destutter` by `≠`), joined by a blank-line separator; the
fragment list `["A","A","B","A"]` compacts to `["A","B","A"]` (the
non-adjacent repeat is kept); and a page with no fragments yields the
empty string. -/
theorem C2_adjacent_dedup_join :
    (∀ page_json : Json,
        extract_full_text page_json =
          join_with "\n\n"
            (List.destutter (fun a b => a ≠ b) (collect_text_fragments page_json)))
    ∧ compactFragments ["A", "A", "B", "A"] = ["A", "B", "A"]
    ∧ extract_full_text (.obj []) = "" := by
  refine ⟨fun page_json => ?_, by decide, ?_⟩
  · unfold extract_full_text
    rw [compactFragments_eq_destutter]
  · unfold extract_full_text
    rw [collect_obj_eq]
    rfl

/-- C3: `is_curated_ios_row` accepts a row exactly when the download status
is the string `"ok"`, the kind is the string `"article"`, and the path is a
string whose final slug is outside the exclusion list; a row with an
excluded slug is rejected even with ok status and article kind, and a row
with a non-`"ok"` status is rejected regardless of kind. -/
theorem C3_is_curated_characterization :
    (∀ row : List (String × Json),
        is_curated_ios_row row = true ↔
          (row.lookup "download_status" = some (.str "ok") ∧
           row.lookup "kind" = some (.str "article") ∧
           ∃ p : String, row.lookup "path" = some (.str p) ∧
             NON_IOS_SLUGS.contains (last_segment p) = false))
    ∧ is_curated_ios_row
        [ ("download_status", .str "ok"), ("kind", .str "article")
        , ("path", .str "/design/human-interface-guidelines/designing-for-macos") ] = false
    ∧ is_curated_ios_row
        [ ("download_status", .str "error"), ("kind", .str "article")
        , ("path", .str "/design/human-interface-guidelines/color") ] = false := by
  refine ⟨fun row => ?_, by decide, by decide⟩
  unfold is_curated_ios_row
  cases hds : row.lookup "download_status" with
  | none => simp
  | some v =>
    cases v with
    | str s =>
      by_cases hs : s = "ok"
      · subst hs
        cases hk : row.lookup "kind" with
        | none => simp
        | some vk =>
          cases vk with
          | str k =>
            by_cases hka : k = "article"
            · subst hka
              cases hp : row.lookup "path" with
              | none => simp
              | some vp =>
                cases vp with
                | str p => simp
                | null => simp
                | bool b => simp
                | num n => simp
                | arr es => simp
                | obj es => simp
            · simp [hka]
          | null => simp
          | bool b => simp
          | num n => simp
          | arr es => simp
          | obj es => simp
      · simp [hs]
    | null => simp
    | bool b => simp
    | num n => simp
    | arr es => simp
    | obj es => simp

/-- Flattening a single `"text"` string leaf yields the normalized string:
the extraction emits the normalized text when non-empty, and both sides are
empty otherwise. -/
theorem extract_single_leaf (s : String) :
    extract_full_text (.obj [("text", .str s)]) = normalize_space s := by
  unfold extract_full_text
  rw [collect_obj_eq]
  show join_with "\n\n" (compactFragments (ctf_entry ("text", .str s) ++ [])) = _
  unfold ctf_entry
  by_cases hs : normalize_space s = ""
  · simp [hs, Json.asString, compactFragments, join_with]
  · simp [hs, Json.asString, compactFragments, compactFragmentsAux, join_with]

/-- C4 counterexample: a page with two distinct fragments renders as
`"a\n\nb"`, but flattening that string as a single text leaf collapses the
blank-line separator to a single space, so the round trip is not the
identity. -/
theorem C4_counterexample :
    extract_full_text
        (.obj [("text", .str (extract_full_text
          (.arr [.obj [("text", .str "a")], .obj [("text", .str "b")]])))]) ≠
      extract_full_text (.arr [.obj [("text", .str "a")], .obj [("text", .str "b")]]) := by
  have h0 : extract_full_text (.arr [.obj [("text", .str "a")], .obj [("text", .str "b")]])
      = "a\n\nb" := by
    unfold extract_full_text
    rw [collect_arr_eq]
    simp only [List.flatMap_cons, List.flatMap_nil, collect_obj_eq]
    decide
  rw [h0, extract_single_leaf]
  decide

/-- C4 amended: flattening the rendered output of a flatten pass, treated as
a single `"text"` string leaf, yields the rendered output with its
whitespace re-normalized (`normalize_space`), which collapses the blank-line
separators between fragments to single spaces; it reproduces the rendered
output unchanged only up to that re-normalization. -/
theorem C4_flatten_rendered_output (page_json : Json) :
    extract_full_text (.obj [("text", .str (extract_full_text page_json))]) =
      normalize_space (extract_full_text page_json) :=
  extract_single_leaf _

/-- C8: abstract extraction depends only on the top-level `abstract` field
(replacing the row by just its `abstract` binding changes nothing); on a
fragment list it takes plain strings and the `"text"`-keyed string of each
mapping item (the same sentinel key as the flattener) without recursing
deeper — a nested mapping contributes nothing to the abstract even though
the flattener would find its text. -/
theorem C8_abstract_top_level_sentinel :
    (∀ page_json : List (String × Json),
        extract_abstract page_json =
          extract_abstract
            (match page_json.lookup "abstract" with
             | some a => [("abstract", a)]
             | none => []))
    ∧ extract_abstract
        [("abstract", .arr [.str "Hello", .obj [("text", .str "world")], .num 3])] = "Hello world"
    ∧ extract_abstract [("abstract", .arr [.obj [("deep", .obj [("text", .str "x")])]])] = ""
    ∧ collect_text_fragments (.obj [("deep", .obj [("text", .str "x")])]) = ["x"] := by
  have hx : collect_text_fragments (.obj [("deep", .obj [("text", .str "x")])]) = ["x"] := by
    simp only [collect_obj_eq, List.flatMap_cons, List.flatMap_nil]
    show ctf_entry ("deep", .obj [("text", .str "x")]) ++ [] = ["x"]
    unfold ctf_entry
    show collect_text_fragments (.obj [("text", .str "x")]) ++ [] = ["x"]
    simp only [collect_obj_eq, List.flatMap_cons, List.flatMap_nil]
    decide
  refine ⟨fun page_json => ?_, by decide, by decide, hx⟩
  cases h : page_json.lookup "abstract" with
  | none =>
    unfold extract_abstract
    rw [h]
    rfl
  | some a =>
    unfold extract_abstract
    rw [h]
    rfl

/-- The extracted fragments are the raw text leaves, normalized, with empty
normalizations dropped (strong induction on the size of the JSON value). -/
theorem collect_eq_leaves_aux :
    ∀ (n : Nat) (j : Json), sizeOf j ≤ n →
      collect_text_fragments j =
        ((text_leaves j).map normalize_space).filter (fun t => t != "") := by
  intro n
  induction n with
  | zero => intro j hle; cases j <;> simp at hle
  | succ n ih =>
    intro j hle
    cases j with
    | null => unfold collect_text_fragments text_leaves; rfl
    | bool b => unfold collect_text_fragments text_leaves; rfl
    | num m => unfold collect_text_fragments text_leaves; rfl
    | str s => unfold collect_text_fragments text_leaves; rfl
    | arr elems =>
      rw [collect_arr_eq, text_leaves_arr_eq, List.map_flatMap, List.filter_flatMap]
      apply List.flatMap_congr
      intro c hc
      have hsz := List.sizeOf_lt_of_mem hc
      simp at hle
      exact ih c (by omega)
    | obj kvs =>
      rw [collect_obj_eq, text_leaves_obj_eq, List.map_flatMap, List.filter_flatMap]
      apply List.flatMap_congr
      intro e he
      obtain ⟨k, v⟩ := e
      have hsz := Json.sizeOf_snd_lt_of_mem he
      simp at hle
      unfold ctf_entry text_leaves_entry
      cases hk : k == "text" with
      | true =>
        cases hv : Json.asString v with
        | some s =>
          show (let text := normalize_space s; if text = "" then [] else [text]) = _
          by_cases ht : normalize_space s = "" <;> simp [ht]
        | none => exact ih v (by omega)
      | false => exact ih v (by omega)

/-- C6: the emitted fragments are exactly the whitespace-normalized values
of the string-valued `"text"` entries in depth-first order, with fragments
normalizing to the empty string omitted; and the leaf `"  foo\n\tbar  "`
yields the fragment `"foo bar"`. -/
theorem C6_fragments_are_normalized_leaves :
    (∀ value : Json,
        collect_text_fragments value =
          ((text_leaves value).map normalize_space).filter (fun t => t != ""))
    ∧ collect_text_fragments (.obj [("text", .str "  foo\n\tbar  ")]) = ["foo bar"] := by
  refine ⟨fun value => collect_eq_leaves_aux (sizeOf value) value le_rfl, ?_⟩
  rw [collect_obj_eq]
  decide

/-- An accepted path starts with the page path filter. -/
theorem accepted_path_starts (kvs : List (String × Json)) (q : String)
    (hq : accepted_path kvs = some q) : py_starts_with q PAGE_PREFIX = true := by
  unfold accepted_path at hq
  split at hq
  · split at hq
    · cases hq
      assumption
    · cases hq
  · cases hq

/-- `walk_nodes` run with the head of an ancestor stack agrees with the
spec-side walk carrying the whole stack (strong induction on size). -/
theorem walk_eq_spec_aux :
    ∀ (n : Nat) (j : Json), sizeOf j ≤ n → ∀ ancestors : List String,
      walk_nodes j ancestors.head? = spec_walk j ancestors := by
  intro n
  induction n with
  | zero => intro j hle; cases j <;> simp at hle
  | succ n ih =>
    intro j hle ancestors
    cases j with
    | null => rw [walk_scalar_eq _ _ (by simp), spec_walk_scalar_eq _ _ (by simp)]
    | bool b => rw [walk_scalar_eq _ _ (by simp), spec_walk_scalar_eq _ _ (by simp)]
    | num m => rw [walk_scalar_eq _ _ (by simp), spec_walk_scalar_eq _ _ (by simp)]
    | str s => rw [walk_scalar_eq _ _ (by simp), spec_walk_scalar_eq _ _ (by simp)]
    | arr elems => rw [walk_scalar_eq _ _ (by simp), spec_walk_scalar_eq _ _ (by simp)]
    | obj kvs =>
      rw [walk_obj_eq, spec_walk_obj_eq]
      congr 1
      cases hch : kvs.lookup "children" with
      | none => rfl
      | some v =>
        cases v with
        | arr cs =>
          apply List.flatMap_congr
          intro c hc
          have hsz := List.sizeOf_lt_of_mem hc
          have hsz2 := Json.sizeOf_lookup_lt hch
          simp at hle hsz2
          cases hacc : accepted_path kvs with
          | some p =>
            have hrec := ih c (by omega) (p :: ancestors)
            simpa using hrec
          | none =>
            have hrec := ih c (by omega) ancestors
            simpa using hrec
        | null => rfl
        | bool b => rfl
        | num m => rfl
        | str s => rfl
        | obj es => rfl

/-- Every node emitted by `walk_nodes` has a path accepted by the filter
(strong induction on size). -/
theorem walk_all_accepted_aux :
    ∀ (n : Nat) (j : Json), sizeOf j ≤ n → ∀ parent : Option String,
      (walk_nodes j parent).all (fun nd => py_starts_with nd.path PAGE_PREFIX) = true := by
  intro n
  induction n with
  | zero => intro j hle; cases j <;> simp at hle
  | succ n ih =>
    intro j hle parent
    cases j with
    | null => rw [walk_scalar_eq _ _ (by simp)]; rfl
    | bool b => rw [walk_scalar_eq _ _ (by simp)]; rfl
    | num m => rw [walk_scalar_eq _ _ (by simp)]; rfl
    | str s => rw [walk_scalar_eq _ _ (by simp)]; rfl
    | arr elems => rw [walk_scalar_eq _ _ (by simp)]; rfl
    | obj kvs =>
      rw [walk_obj_eq, List.all_append, Bool.and_eq_true]
      constructor
      · cases hacc : accepted_path kvs with
        | none => rfl
        | some p => simpa [nodeOf] using accepted_path_starts kvs p hacc
      · cases hch : kvs.lookup "children" with
        | none => rfl
        | some v =>
          cases v with
          | arr cs =>
            rw [List.all_eq_true]
            intro x hx
            rw [List.mem_flatMap] at hx
            obtain ⟨c, hc, hxc⟩ := hx
            have hsz := List.sizeOf_lt_of_mem hc
            have hsz2 := Json.sizeOf_lookup_lt hch
            simp at hle hsz2
            have hall := ih c (by omega) ((accepted_path kvs).or parent)
            rw [List.all_eq_true] at hall
            exact hall x hxc
          | null => rfl
          | bool b => rfl
          | num m => rfl
          | str s => rfl
          | obj es => rfl

/-- C5: for every node and every accepted-ancestor stack, the source walk
run with the stack head as parent context equals the spec-side walk
(acceptance iff the path is a string with the page path filter as prefix,
`parent_path` = nearest accepted ancestor, unaccepted nodes passing the
context through unchanged), and every emitted node's path starts with the
filter. -/
theorem C5_walk_refinement (node : Json) (ancestors : List String) :
    walk_nodes node ancestors.head? = spec_walk node ancestors
    ∧ (walk_nodes node ancestors.head?).all
        (fun nd => py_starts_with nd.path PAGE_PREFIX) = true :=
  ⟨walk_eq_spec_aux (sizeOf node) node le_rfl ancestors,
   walk_all_accepted_aux (sizeOf node) node le_rfl ancestors.head?⟩

/-- A left fold that appends a per-row block to the accumulator is the
initial value followed by the concatenation of the per-row blocks. -/
theorem foldl_sections {α : Type} (g : List String → α → List String) (f : α → List String)
    (hg : ∀ acc r, g acc r = acc ++ f r) :
    ∀ (rows : List α) (init : List String), rows.foldl g init = init ++ rows.flatMap f := by
  intro rows
  induction rows with
  | nil => intro init; simp
  | cons r rs ih =>
    intro init
    rw [List.foldl_cons, hg, ih, List.flatMap_cons, List.append_assoc]

/-- C7: the full-text dump is the fixed header followed by one section per
catalog row, in catalog order, where a row contributes a section exactly
when its status is `"ok"` and its stored page parses (rows failing the
storage lookup are silently skipped), and a section whose extraction yields
no text shows the fixed placeholder. -/
theorem C7_fulltext_sections :
    ∀ (rows : List Row) (store : String → Option Json) (generated_at : String),
      build_fulltext_markdown rows store generated_at =
        fulltext_header generated_at ++ rows.flatMap (fulltext_section_spec store)
      ∧ (∀ r : Row, (fulltext_section_spec store r).isEmpty =
          !((r.download_status == "ok") && (store r.local_json).isSome))
      ∧ (∀ (r : Row) (page_json : Json), store r.local_json = some page_json →
          r.download_status = "ok" → extract_full_text page_json = "" →
          fulltext_section_spec store r =
            [ "## " ++ r.title, "", "- Path: `" ++ r.path ++ "`"
            , "- Source URL: " ++ r.source_url, "- Data URL: " ++ r.data_url, ""
            , "(no extracted text)", "" ]) := by
  intro rows store generated_at
  have hg : ∀ (acc : List String) (r : Row),
      (if r.download_status ≠ "ok" then acc
       else
         match store r.local_json with
         | none => acc
         | some page_json =>
           let full_text := extract_full_text page_json
           acc ++
             [ "## " ++ r.title, "", "- Path: `" ++ r.path ++ "`"
             , "- Source URL: " ++ r.source_url, "- Data URL: " ++ r.data_url, "" ] ++
             (if full_text = "" then ["(no extracted text)"] else [full_text]) ++ [""])
      = acc ++ fulltext_section_spec store r := by
    intro acc r
    unfold fulltext_section_spec
    by_cases hd : r.download_status = "ok"
    · cases hst : store r.local_json <;> simp [hd, hst]
    · simp [hd]
  refine ⟨?_, fun r => ?_, fun r page_json hst hok hemp => ?_⟩
  · unfold build_fulltext_markdown
    exact foldl_sections _ _ hg rows _
  · unfold fulltext_section_spec
    by_cases hd : r.download_status = "ok"
    · cases hst : store r.local_json <;> simp [hd, hst]
    · simp [hd]
  · unfold fulltext_section_spec
    simp [hok, hst, hemp]

/-- Witness for C7: a concrete ok row whose stored page parses but has no
text fragments renders the placeholder section. -/
theorem C7_witness :
    fulltext_section_spec (fun _ => some (.obj []))
      { path := "/design/human-interface-guidelines/color", title := "Color"
      , kind := "article", parent_path := none, source_url := "S", data_url := "D"
      , local_json := "L", download_status := "ok", abstract := "", error := "" } =
      [ "## Color", "", "- Path: `/design/human-interface-guidelines/color`"
      , "- Source URL: S", "- Data URL: D", "", "(no extracted text)", "" ] := by
  have h := (C7_fulltext_sections [] (fun _ => some (.obj [])) "t").2.2
    { path := "/design/human-interface-guidelines/color", title := "Color"
    , kind := "article", parent_path := none, source_url := "S", data_url := "D"
    , local_json := "L", download_status := "ok", abstract := "", error := "" }
    (.obj []) rfl rfl
    (by unfold extract_full_text; rw [collect_obj_eq]; rfl)
  simpa using h

/-- C10: the curated dump's `Included pages` count (line index 5) is the
number of rows passing `is_curated_ios_row`, independent of the stored
pages; the body renders one section per curated row whose storage lookup
succeeds; and on a concrete curated row whose stored page is unreadable
the count is 1 while no section is rendered, so the count can exceed the
rendered sections. -/
theorem C10_curated_count :
    ∀ (rows : List Row) (store : String → Option Json) (generated_at : String),
      build_curated_markdown rows store generated_at =
        curated_header generated_at
            (rows.filter (fun r => is_curated_ios_row r.toDict)).length ++
          (rows.filter (fun r => is_curated_ios_row r.toDict)).flatMap
            (curated_section_spec store)
      ∧ (build_curated_markdown rows store generated_at)[5]? =
          some ("Included pages: " ++
            toString (rows.filter (fun r => is_curated_ios_row r.toDict)).length)
      ∧ (∀ r : Row, (curated_section_spec store r).isEmpty = (store r.local_json).isNone)
      ∧ (([ { path := "/design/human-interface-guidelines/color", title := "Color"
            , kind := "article", parent_path := none, source_url := "S", data_url := "D"
            , local_json := "L", download_status := "ok", abstract := "", error := "" } ]
            : List Row).filter (fun r => is_curated_ios_row r.toDict)).length = 1
      ∧ (([ { path := "/design/human-interface-guidelines/color", title := "Color"
            , kind := "article", parent_path := none, source_url := "S", data_url := "D"
            , local_json := "L", download_status := "ok", abstract := "", error := "" } ]
            : List Row).filter (fun r => is_curated_ios_row r.toDict)).flatMap
          (curated_section_spec (fun _ => none)) = [] := by
  intro rows store generated_at
  have hg : ∀ (acc : List String) (r : Row),
      (match store r.local_json with
       | none => acc
       | some page_json =>
         let full_text := extract_full_text page_json
         acc ++
           [ "## " ++ r.title, "", "- Path: `" ++ r.path ++ "`"
           , "- Source URL: " ++ r.source_url, "" ] ++
           (if full_text = "" then ["(no extracted text)"] else [full_text]) ++ [""])
      = acc ++ curated_section_spec store r := by
    intro acc r
    unfold curated_section_spec
    cases hst : store r.local_json <;> simp [hst]
  have hmain : build_curated_markdown rows store generated_at =
      curated_header generated_at
          (rows.filter (fun r => is_curated_ios_row r.toDict)).length ++
        (rows.filter (fun r => is_curated_ios_row r.toDict)).flatMap
          (curated_section_spec store) := by
    unfold build_curated_markdown
    exact foldl_sections _ _ hg _ _
  refine ⟨hmain, ?_, fun r => ?_, by decide, by decide⟩
  · rw [hmain]
    rw [List.getElem?_append_left (by simp [curated_header])]
    rfl
  · unfold curated_section_spec
    cases hst : store r.local_json <;> simp [hst]

/-- C9: a failed index fetch makes the run exit with status 1 (the uncaught
exception) with no catalog produced; a run whose index fetch succeeds with a
well-shaped index (one on which neither line 134 nor the root loop raises)
completes with exit 0 regardless of per-page fetch outcomes; and an index
whose shape makes the walk raise aborts the run like the fetch failure,
exit 1 with no catalog. -/
theorem C9_index_failure_fatal :
    (∀ (net : String → Except String (List (String × Json))) (generated_at exc : String),
        net INDEX_URL = .error exc →
          exit_code (main_model true net generated_at) = 1
          ∧ catalog_written true net generated_at = false)
    ∧ (∀ (net : String → Except String (List (String × Json))) (generated_at : String)
        (index_json : List (String × Json)),
        net INDEX_URL = .ok index_json →
        index_shape_raises index_json = none →
          exit_code (main_model true net generated_at) = 0)
    ∧ (∀ (net : String → Except String (List (String × Json))) (generated_at : String)
        (index_json : List (String × Json)) (exc : String),
        net INDEX_URL = .ok index_json →
        index_shape_raises index_json = some exc →
          exit_code (main_model true net generated_at) = 1
          ∧ catalog_written true net generated_at = false) := by
  refine ⟨?_, ?_, ?_⟩
  · intro net generated_at exc h
    constructor
    · simp [main_model, sync_sources, exit_code, h]
    · simp [catalog_written, sync_sources, h, Except.isOk, Except.toBool]
  · intro net generated_at index_json h hshape
    simp [main_model, sync_sources, exit_code, h, hshape]
  · intro net generated_at index_json exc h hshape
    constructor
    · simp [main_model, sync_sources, exit_code, h, hshape]
    · simp [catalog_written, sync_sources, h, hshape, Except.isOk, Except.toBool]

/-- Witness for C9: a network that always fails gives exit 1 and no catalog;
a network answering the index with a well-shaped document (whose page
fetches then fail, the URLs differing from the index URL) gives exit 0; and
a network answering the index with `interfaceLanguages` bound to `null` —
the shape on which line 134 raises — gives exit 1 and no catalog. -/
theorem C9_witness :
    exit_code (main_model true (fun _ => .error "connection refused") "t") = 1
    ∧ catalog_written true (fun _ => .error "connection refused") "t" = false
    ∧ exit_code (main_model true
        (fun url => if url = INDEX_URL then
          .ok [("interfaceLanguages", .obj [("swift", .arr [.obj
            [("path", .str "/design/human-interface-guidelines/color")]])])]
          else .error "HTTP 404") "t") = 0
    ∧ exit_code (main_model true (fun _ => .ok [("interfaceLanguages", .null)]) "t") = 1
    ∧ catalog_written true (fun _ => .ok [("interfaceLanguages", .null)]) "t" = false :=
  ⟨(C9_index_failure_fatal.1 _ "t" "connection refused" rfl).1,
   (C9_index_failure_fatal.1 _ "t" "connection refused" rfl).2,
   C9_index_failure_fatal.2.1 _ "t"
     [("interfaceLanguages", .obj [("swift", .arr [.obj
       [("path", .str "/design/human-interface-guidelines/color")]])])]
     (by simp) rfl,
   (C9_index_failure_fatal.2.2 _ "t" [("interfaceLanguages", .null)]
     "AttributeError: object has no attribute get" rfl rfl).1,
   (C9_index_failure_fatal.2.2 _ "t" [("interfaceLanguages", .null)]
     "AttributeError: object has no attribute get" rfl rfl).2⟩

/-- The keys of the dedup dict after one assignment: unchanged when the key
was present, the new key appended otherwise. -/
theorem dictUpsert_keys (d : List (String × Node)) (n : Node) :
    (dictUpsert d n).map Prod.fst =
      if d.any (fun e => e.1 == n.path) then d.map Prod.fst
      else d.map Prod.fst ++ [n.path] := by
  unfold dictUpsert
  by_cases h : d.any (fun e => e.1 == n.path)
  · rw [if_pos h, if_pos h, List.map_map]
    apply List.map_congr_left
    intro e he
    by_cases hc : e.1 = n.path <;> simp [hc]
  · rw [if_neg h, if_neg h, List.map_append]
    rfl

/-- One dict assignment preserves the dict invariant: every value's path is
its key, and the keys are pairwise distinct. -/
theorem dictUpsert_good (d : List (String × Node)) (n : Node)
    (hval : ∀ e ∈ d, e.2.path = e.1) (hkeys : (d.map Prod.fst).Nodup) :
    (∀ e ∈ dictUpsert d n, e.2.path = e.1) ∧ ((dictUpsert d n).map Prod.fst).Nodup := by
  constructor
  · intro e he
    unfold dictUpsert at he
    by_cases hany : d.any (fun x => x.1 == n.path)
    · rw [if_pos hany, List.mem_map] at he
      obtain ⟨e0, he0, heq⟩ := he
      by_cases hc : (e0.1 == n.path) = true
      · rw [if_pos hc] at heq
        subst heq
        exact (beq_iff_eq.mp hc).symm
      · rw [if_neg hc] at heq
        subst heq
        exact hval e0 he0
    · rw [if_neg hany, List.mem_append] at he
      cases he with
      | inl h0 => exact hval e h0
      | inr h0 =>
        rw [List.mem_singleton] at h0
        subst h0
        rfl
  · rw [dictUpsert_keys]
    by_cases hany : d.any (fun x => x.1 == n.path)
    · rw [if_pos hany]
      exact hkeys
    · rw [if_neg hany]
      rw [List.nodup_append]
      refine ⟨hkeys, List.nodup_singleton _, ?_⟩
      intro a ha hb
      rw [List.mem_singleton] at hb
      subst hb
      rw [List.mem_map] at ha
      obtain ⟨e, he, hpe⟩ := ha
      simp only [Bool.not_eq_true, List.any_eq_false] at hany
      exact absurd hpe (by simpa using hany e he)

/-- The dedup dict built by the whole fold keeps the dict invariant. -/
theorem foldl_upsert_good (nodes : List Node) :
    ∀ d : List (String × Node),
      (∀ e ∈ d, e.2.path = e.1) → ((d.map Prod.fst).Nodup) →
      (∀ e ∈ nodes.foldl dictUpsert d, e.2.path = e.1)
      ∧ ((nodes.foldl dictUpsert d).map Prod.fst).Nodup := by
  induction nodes with
  | nil => intro d h1 h2; exact ⟨h1, h2⟩
  | cons nd rest ih =>
    intro d h1 h2
    rw [List.foldl_cons]
    have hg := dictUpsert_good d nd h1 h2
    exact ih (dictUpsert d nd) hg.1 hg.2

/-- When no key of the dict matches, no value survives the path filter. -/
theorem filter_values_none (d : List (String × Node)) (p : String)
    (hval : ∀ e ∈ d, e.2.path = e.1)
    (hnone : ∀ e ∈ d, (e.1 == p) = false) :
    (d.map Prod.snd).filter (fun m => m.path == p) = [] := by
  rw [List.filter_eq_nil_iff]
  intro m hm
  rw [List.mem_map] at hm
  obtain ⟨e, he, hme⟩ := hm
  subst hme
  rw [hval e he]
  simp [hnone e he]

/-- Filtering the values by path after replacing the bindings of one key:
when the replaced key has the filtered path and is present, exactly the new
node survives; otherwise the filter is unchanged. -/
theorem replace_filter (n : Node) (p : String) :
    ∀ (d : List (String × Node)),
      (∀ e ∈ d, e.2.path = e.1) → ((d.map Prod.fst).Nodup) →
      ((d.map (fun e => if e.1 == n.path then (e.1, n) else e)).map Prod.snd).filter
          (fun m => m.path == p) =
        if (n.path == p) && d.any (fun e => e.1 == n.path) then [n]
        else (d.map Prod.snd).filter (fun m => m.path == p) := by
  intro d
  induction d with
  | nil => intro h1 h2; simp
  | cons e es ih =>
    intro h1 h2
    have hval_es : ∀ x ∈ es, x.2.path = x.1 := fun x hx => h1 x (List.mem_cons_of_mem _ hx)
    have hkeys_es : (es.map Prod.fst).Nodup := (List.nodup_cons.mp h2).2
    have hnotin : e.1 ∉ es.map Prod.fst := (List.nodup_cons.mp h2).1
    have hvhead : e.2.path = e.1 := h1 e (List.mem_cons_self _ _)
    have hstep : ∀ x ∈ es, x.1 ≠ e.1 := by
      intro x hx hxe
      exact hnotin (List.mem_map.mpr ⟨x, hx, hxe⟩)
    by_cases hc : (e.1 == n.path) = true
    · -- the head is the replaced binding; no other key of the dict matches
      have hne : e.1 = n.path := beq_iff_eq.mp hc
      have hes_id : es.map (fun x => if x.1 == n.path then (x.1, n) else x) = es := by
        conv_rhs => rw [← List.map_id es]
        apply List.map_congr_left
        intro x hx
        have hx0 : (x.1 == n.path) = false := by
          simp only [beq_eq_false_iff_ne, ne_eq]
          rw [← hne]
          exact hstep x hx
        simp [hx0]
      simp only [List.map_cons, hes_id, if_pos hc]
      by_cases hp : (n.path == p) = true
      · have hrest : (es.map Prod.snd).filter (fun m => m.path == p) = [] := by
          apply filter_values_none es p hval_es
          intro x hx
          simp only [beq_eq_false_iff_ne, ne_eq]
          rw [← beq_iff_eq.mp hp, ← hne]
          exact hstep x hx
        rw [List.filter_cons, hrest]
        simp [hp, hc, List.any_cons]
      · have hp0 : (n.path == p) = false := Bool.eq_false_iff.mpr hp
        have hhead : (e.2.path == p) = false := by
          rw [hvhead, hne]
          exact hp0
        rw [List.filter_cons, List.filter_cons, hhead]
        simp [hp0, List.any_cons]
    · -- the head is untouched; recurse on the tail
      have ihes := ih hval_es hkeys_es
      have hc0 : (e.1 == n.path) = false := Bool.eq_false_iff.mpr hc
      simp only [List.map_cons, if_neg hc]
      by_cases hcond : ((n.path == p) && es.any (fun x => x.1 == n.path)) = true
      · obtain ⟨hcp, hcany⟩ : (n.path == p) = true ∧ (es.any fun x => x.1 == n.path) = true := by
          exact ⟨(Bool.and_eq_true_iff.mp hcond).1, (Bool.and_eq_true_iff.mp hcond).2⟩
        have hne2 : e.1 ≠ p := by
          rw [← beq_iff_eq.mp hcp]
          exact fun h => hc (beq_iff_eq.mpr h)
        have hhead : (e.2.path == p) = false := by
          rw [hvhead]
          exact beq_eq_false_iff_ne.mpr hne2
        rw [List.filter_cons, hhead, ihes]
        simp [hcond, List.any_cons, hcp, hcany, hc0]
      · have hcond0 : ((n.path == p) && es.any fun x => x.1 == n.path) = false :=
          Bool.eq_false_iff.mpr hcond
        rw [List.filter_cons, ihes, List.any_cons, hc0, Bool.false_or, hcond0]
        simp [List.filter_cons]

/-- Filtering the values by path after one dict assignment: when the
assigned node's path is the filtered one, exactly the assigned node
survives; otherwise the filter is unchanged. -/
theorem dictUpsert_filter (d : List (String × Node)) (n : Node) (p : String)
    (hval : ∀ e ∈ d, e.2.path = e.1) (hkeys : (d.map Prod.fst).Nodup) :
    ((dictUpsert d n).map Prod.snd).filter (fun m => m.path == p) =
      if (n.path == p) = true then [n]
      else (d.map Prod.snd).filter (fun m => m.path == p) := by
  unfold dictUpsert
  by_cases hany : (d.any fun e => e.1 == n.path) = true
  · rw [if_pos hany, replace_filter n p d hval hkeys, hany, Bool.and_true]
  · rw [if_neg hany]
    have hany0 : (d.any fun e => e.1 == n.path) = false := Bool.eq_false_iff.mpr hany
    rw [List.map_append, List.filter_append]
    by_cases hp : (n.path == p) = true
    · have hd : (d.map Prod.snd).filter (fun m => m.path == p) = [] := by
        apply filter_values_none d p hval
        intro x hx
        have := List.any_eq_false.mp hany0 x hx
        simp only [beq_eq_false_iff_ne, ne_eq]
        rw [← beq_iff_eq.mp hp]
        simpa using this
      rw [hd]
      simp [List.filter_cons, hp]
    · have hp0 : (n.path == p) = false := Bool.eq_false_iff.mpr hp
      simp [List.filter_cons, hp0]

/-- Filtering the dedup-dict values by path after the whole fold: the last
node of the input with that path when one exists, otherwise the filter of
the starting dict's values. -/
theorem foldl_upsert_filter :
    ∀ (nodes : List Node) (d : List (String × Node)) (p : String),
      (∀ e ∈ d, e.2.path = e.1) → ((d.map Prod.fst).Nodup) →
      ((nodes.foldl dictUpsert d).map Prod.snd).filter (fun m => m.path == p) =
        match nodes.reverse.find? (fun m => m.path == p) with
        | some m => [m]
        | none => (d.map Prod.snd).filter (fun m => m.path == p) := by
  intro nodes
  induction nodes with
  | nil => intro d p h1 h2; simp
  | cons nd rest ih =>
    intro d p h1 h2
    rw [List.foldl_cons]
    have hg := dictUpsert_good d nd h1 h2
    rw [ih (dictUpsert d nd) p hg.1 hg.2]
    rw [List.reverse_cons, List.find?_append]
    cases hf : rest.reverse.find? (fun m => m.path == p) with
    | some m => rfl
    | none =>
      rw [Option.none_or]
      rw [dictUpsert_filter d nd p h1 h2]
      by_cases hp : (nd.path == p) = true
      · simp [List.find?, hp]
      · have hp0 : (nd.path == p) = false := Bool.eq_false_iff.mpr hp
        simp [List.find?, hp0]

/-- C1: the node catalog is strictly sorted by path (so in particular free
of duplicate paths), and for every path the catalog's nodes with that path
are exactly the last-visited node of the pre-order traversal with that path
(so the surviving node's title, kind and parent fields are those of the
last occurrence). -/
theorem C1_catalog_sorted_last_wins :
    ∀ index_json : List (String × Json),
      (collect_hig_nodes index_json).Pairwise (fun a b => a.path < b.path)
      ∧ ∀ p : String,
          (collect_hig_nodes index_json).filter (fun nd => nd.path == p) =
            ((hig_preorder index_json).reverse.find? (fun nd => nd.path == p)).toList := by
  intro index_json
  have hgood := foldl_upsert_good (hig_preorder index_json) [] (by simp) (by simp)
  have hperm : (collect_hig_nodes index_json).Perm
      ((dedup_nodes (hig_preorder index_json)).map Prod.snd) := by
    unfold collect_hig_nodes
    exact List.mergeSort_perm _ _
  constructor
  · have hsorted := @List.sorted_mergeSort Node
      (fun a b : Node => decide (a.path ≤ b.path))
      (fun a b c hab hbc => by
        simp only [decide_eq_true_eq] at hab hbc ⊢
        exact le_trans hab hbc)
      (fun a b => by
        simp only [Bool.or_eq_true, decide_eq_true_eq]
        exact le_total a.path b.path)
      ((dedup_nodes (hig_preorder index_json)).map Prod.snd)
    have hle : (collect_hig_nodes index_json).Pairwise (fun a b => a.path ≤ b.path) := by
      unfold collect_hig_nodes
      exact hsorted.imp (fun h => by simpa using h)
    have hpathsnodup :
        (((dedup_nodes (hig_preorder index_json)).map Prod.snd).map
          (fun nd => nd.path)).Nodup := by
      have hmm : ((dedup_nodes (hig_preorder index_json)).map Prod.snd).map
            (fun nd => nd.path) = (dedup_nodes (hig_preorder index_json)).map Prod.fst := by
        rw [List.map_map]
        apply List.map_congr_left
        intro e he
        exact hgood.1 e he
      rw [hmm]
      exact hgood.2
    have hnodup : ((collect_hig_nodes index_json).map (fun nd => nd.path)).Nodup :=
      (hperm.map (fun nd => nd.path)).symm.nodup hpathsnodup
    have hne : (collect_hig_nodes index_json).Pairwise (fun a b => a.path ≠ b.path) :=
      List.pairwise_map.mp hnodup
    exact (hle.and hne).imp (fun h => lt_of_le_of_ne h.1 h.2)
  · intro p
    have hfil := foldl_upsert_filter (hig_preorder index_json) [] p (by simp) (by simp)
    have hpermf :
        ((collect_hig_nodes index_json).filter (fun nd => nd.path == p)).Perm
          (((dedup_nodes (hig_preorder index_json)).map Prod.snd).filter
            (fun nd => nd.path == p)) := hperm.filter _
    unfold dedup_nodes at hpermf
    rw [hfil] at hpermf
    cases hf : (hig_preorder index_json).reverse.find? (fun nd => nd.path == p) with
    | some m =>
      rw [hf] at hpermf
      exact List.perm_singleton.mp hpermf
    | none =>
      rw [hf] at hpermf
      simp only [List.map_nil, List.filter_nil] at hpermf
      exact hpermf.eq_nil
